import Mathlib

/- Verification of the Auto-Scholar workflow core: a shallow embedding of the
   citation-marker processing, deduplication, critic QA loop, streaming event
   queue, extractor, source failure tracker and Semantic Scholar retry logic,
   with theorems settling the specification claims about them. Python strings
   are modelled as lists of characters (`List Char`); regular-expression
   scanning is modelled by an explicit left-to-right non-overlapping scanner. -/

namespace AutoScholar

/- Generic left-to-right regex-style scanner.  A matcher `m` tries to match a
   pattern at the head of the character list; on success it yields the captured
   number and the remaining suffix.  `scanF` walks the text: on a match it
   emits a `Seg.cite` and resumes after the match, otherwise it emits the head
   character as a literal and advances one position.  This is exactly the
   semantics of Python `re.finditer`/`re.sub` for the patterns used here.
   The fuel argument makes the recursion structural; `fuel = length` always
   suffices because a successful match consumes at least one character. -/

inductive Seg where
  | lit : Char → Seg
  | cite : Nat → Seg
deriving DecidableEq

def scanF (m : List Char → Option (Nat × List Char)) : Nat → List Char → List Seg
  | _, [] => []
  | 0, l => l.map Seg.lit
  | fuel + 1, c :: cs =>
    match m (c :: cs) with
    | some (n, r) => Seg.cite n :: scanF m fuel r
    | none => Seg.lit c :: scanF m fuel cs

/-- A matcher shrinks the text: the suffix after a match is strictly shorter. -/
def Shrinks (m : List Char → Option (Nat × List Char)) : Prop :=
  ∀ l n r, m l = some (n, r) → r.length < l.length

theorem scanF_fuel (m : List Char → Option (Nat × List Char)) (hm : Shrinks m) :
    ∀ fuel fuel2 (l : List Char), l.length ≤ fuel → l.length ≤ fuel2 →
      scanF m fuel l = scanF m fuel2 l := by
  intro fuel
  induction fuel with
  | zero =>
    intro fuel2 l hl _
    have : l = [] := List.length_eq_zero.mp (Nat.le_zero.mp hl)
    subst this
    cases fuel2 <;> rfl
  | succ fuel ih =>
    intro fuel2 l hl hl2
    cases l with
    | nil => cases fuel2 <;> rfl
    | cons c cs =>
      cases fuel2 with
      | zero => exact absurd hl2 (by simp)
      | succ fuel2 =>
        show scanF m (fuel + 1) (c :: cs) = scanF m (fuel2 + 1) (c :: cs)
        simp only [scanF]
        cases hmatch : m (c :: cs) with
        | some nr =>
          obtain ⟨n, r⟩ := nr
          have hr : r.length < (c :: cs).length := hm _ _ _ hmatch
          have h1 : r.length ≤ fuel := by
            have := Nat.lt_of_lt_of_le hr hl
            omega
          have h2 : r.length ≤ fuel2 := by
            have := Nat.lt_of_lt_of_le hr hl2
            omega
          simp only [ih fuel2 r h1 h2]
        | none =>
          have h1 : cs.length ≤ fuel := by
            simp only [List.length_cons] at hl
            omega
          have h2 : cs.length ≤ fuel2 := by
            simp only [List.length_cons] at hl2
            omega
          simp only [ih fuel2 cs h1 h2]

/-- Run the scanner with just enough fuel. -/
def reScan (m : List Char → Option (Nat × List Char)) (l : List Char) : List Seg :=
  scanF m l.length l

theorem reScan_nil (m : List Char → Option (Nat × List Char)) : reScan m [] = [] := rfl

theorem reScan_cons (m : List Char → Option (Nat × List Char)) (hm : Shrinks m)
    (c : Char) (cs : List Char) :
    reScan m (c :: cs) =
      match m (c :: cs) with
      | some (n, r) => Seg.cite n :: reScan m r
      | none => Seg.lit c :: reScan m cs := by
  show scanF m (cs.length + 1) (c :: cs) = _
  simp only [scanF]
  cases hmatch : m (c :: cs) with
  | some nr =>
    obtain ⟨n, r⟩ := nr
    have hr : r.length < (c :: cs).length := hm _ _ _ hmatch
    have : r.length ≤ cs.length := by simp only [List.length_cons] at hr; omega
    simp only [reScan, scanF_fuel m hm cs.length r.length r this (Nat.le_refl _)]
  | none => simp only [reScan]

/- Digit handling shared by the two concrete patterns.  `leadDigits` splits a
   maximal leading run of decimal digits (the greedy semantics of a regex
   `\d+` whose successor in the pattern is not a digit), and `digitsToNat`
   is Python `int` on a digit string. -/

def leadDigits : List Char → List Char × List Char
  | [] => ([], [])
  | c :: cs =>
    if c.isDigit then
      let p := leadDigits cs
      (c :: p.1, p.2)
    else ([], c :: cs)

def digitsToNat (ds : List Char) : Nat :=
  ds.foldl (fun a c => 10 * a + (c.toNat - 48)) 0

theorem leadDigits_suffix_le (cs : List Char) : (leadDigits cs).2.length ≤ cs.length := by
  induction cs with
  | nil => simp [leadDigits]
  | cons c cs ih =>
    simp only [leadDigits]
    by_cases h : c.isDigit
    · simp only [h, if_pos]
      exact Nat.le_succ_of_le ih
    · simp [h]

/-- Helper for both patterns: a nonempty digit run followed by a closing
character, as in the tails of \x7bcite:(\d+)\x7d and \[(\d+)\]. -/
def numAfter (close : Char) (rest : List Char) : Option (Nat × List Char) :=
  match leadDigits rest with
  | ([], _) => none
  | (d :: ds, c :: r2) => if c = close then some (digitsToNat (d :: ds), r2) else none
  | (_ :: _, []) => none

theorem numAfter_shrinks (close : Char) (rest : List Char) (n : Nat) (r : List Char)
    (h : numAfter close rest = some (n, r)) : r.length < rest.length := by
  unfold numAfter at h
  split at h
  · exact absurd h (by simp)
  · rename_i d ds c r2 heq
    split at h
    · rw [Option.some.injEq, Prod.mk.injEq] at h
      obtain ⟨-, rfl⟩ := h
      have hle := leadDigits_suffix_le rest
      rw [heq] at hle
      simp only [List.length_cons] at hle
      omega
    · exact absurd h (by simp)
  · exact absurd h (by simp)

/-- Matcher for the pattern \x7bcite:(\d+)\x7d at the head of the text. -/
def citeAt : List Char → Option (Nat × List Char)
  | '{' :: 'c' :: 'i' :: 't' :: 'e' :: ':' :: rest => numAfter '}' rest
  | _ => none

/-- Matcher for the pattern \[(\d+)\] at the head of the text. -/
def bracketAt : List Char → Option (Nat × List Char)
  | '[' :: rest => numAfter ']' rest
  | _ => none

theorem citeAt_shrinks : Shrinks citeAt := by
  intro l n r h
  unfold citeAt at h
  split at h
  · rename_i rest
    have := numAfter_shrinks _ _ _ _ h
    simp only [List.length_cons]
    omega
  · exact absurd h (by simp)

theorem bracketAt_shrinks : Shrinks bracketAt := by
  intro l n r h
  unfold bracketAt at h
  split at h
  · rename_i rest
    have := numAfter_shrinks _ _ _ _ h
    simp only [List.length_cons]
    omega
  · exact absurd h (by simp)

/-- Scanner for re.findall / re.sub with pattern \x7bcite:(\d+)\x7d. -/
def citeScan (l : List Char) : List Seg := reScan citeAt l

/-- Scanner for re.findall with pattern \[(\d+)\]. -/
def bracketScan (l : List Char) : List Seg := reScan bracketAt l

/-- The captured groups of the scan, in text order: re.findall semantics. -/
def segCites : List Seg → List Nat
  | [] => []
  | Seg.cite n :: rest => n :: segCites rest
  | Seg.lit _ :: rest => segCites rest

/-- re.findall(r"\x7bcite:(\d+)\x7d", content) parsed to numbers. -/
def citeFinds (l : List Char) : List Nat := segCites (citeScan l)

/-- re.findall(r"\[(\d+)\]", content) parsed to numbers. -/
def bracketFinds (l : List Char) : List Nat := segCites (bracketScan l)

/- re.sub(r"\x7bcite:(\d+)\x7d", replace_match, content) from the request
   adapter: an in-range index becomes "[idx]", an out-of-range one becomes the
   empty string, and unmatched text is copied unchanged. -/

def renderCiteSeg (maxIndex : Nat) : Seg → List Char
  | Seg.lit c => [c]
  | Seg.cite n => if 1 ≤ n ∧ n ≤ maxIndex then '[' :: (Nat.repr n).data ++ [']'] else []

def citeSub (maxIndex : Nat) (l : List Char) : List Char :=
  (citeScan l).flatMap (renderCiteSeg maxIndex)

/-- Python sorted(set(xs)) for numbers: the distinct values in ascending order. -/
def sortedSet (l : List Nat) : List Nat := l.dedup.insertionSort (· ≤ ·)

theorem mem_sortedSet (l : List Nat) (n : Nat) : n ∈ sortedSet l ↔ n ∈ l := by
  unfold sortedSet
  rw [(List.perm_insertionSort (· ≤ ·) l.dedup).mem_iff, List.mem_dedup]

theorem sortedSet_nodup (l : List Nat) : (sortedSet l).Nodup :=
  (List.perm_insertionSort (· ≤ ·) l.dedup).nodup_iff.mpr l.nodup_dedup

theorem sortedSet_sorted (l : List Nat) : (sortedSet l).Sorted (· < ·) := by
  have hle : (sortedSet l).Sorted (· ≤ ·) := List.sorted_insertionSort (· ≤ ·) l.dedup
  have hnd := sortedSet_nodup l
  exact List.Pairwise.imp₂ (fun a b h1 h2 => lt_of_le_of_ne h1 h2) hle hnd

theorem sortedSet_length_eq_dedup_length (l : List Nat) :
    (sortedSet l).length = l.dedup.length :=
  (List.perm_insertionSort (· ≤ ·) l.dedup).length_eq

/- Data model from backend/schemas.py, restricted to the fields the claims
   touch.  Optional Python fields become Option; Python str stays String at
   this level and is converted to List Char where scanning happens. -/

inductive PaperSource where
  | semantic_scholar
  | arxiv
  | pubmed
deriving DecidableEq

structure StructuredContribution where
  problem : Option String := none
  method : Option String := none
  novelty : Option String := none
  dataset : Option String := none
  baseline : Option String := none
  results : Option String := none
  limitations : Option String := none
  future_work : Option String := none
deriving DecidableEq

structure PaperMetadata where
  paper_id : String
  title : String
  abstract : String := ""
  year : Option Nat := none
  doi : Option String := none
  pdf_url : Option String := none
  is_approved : Bool := false
  core_contribution : Option String := none
  structured_contribution : Option StructuredContribution := none
  source : PaperSource := PaperSource.semantic_scholar
deriving DecidableEq

structure ReviewSection where
  heading : String
  content : List Char
  cited_paper_ids : List String := []
deriving DecidableEq

structure DraftOutput where
  title : String
  sections : List ReviewSection
deriving DecidableEq

/- Whitespace predicates used by .strip() / .split() / .isspace(), restricted
   to the ASCII whitespace characters. -/

def isPySpace (c : Char) : Bool :=
  c = ' ' ∨ c = '\t' ∨ c = '\n' ∨ c = '\x0b' ∨ c = '\x0c' ∨ c = '\x0d'

/-- Python str.strip(): drop leading and trailing whitespace. -/
def pyStrip (l : List Char) : List Char :=
  ((l.dropWhile isPySpace).reverse.dropWhile isPySpace).reverse

/-- Python str.split() with no argument: words separated by whitespace runs. -/
def pySplitAux : List Char → List Char → List (List Char)
  | [], acc => if acc = [] then [] else [acc.reverse]
  | c :: cs, acc =>
    if isPySpace c then
      if acc = [] then pySplitAux cs [] else acc.reverse :: pySplitAux cs []
    else pySplitAux cs (c :: acc)

def pySplit (l : List Char) : List (List Char) := pySplitAux l []

/- Deduplication from backend/utils/scholar_api.py (deduplicate_papers).
   The normalized title is: lowercase, strip, keep alphanumerics and spaces,
   collapse whitespace runs to single spaces. -/

def normalizedTitle (t : String) : List Char :=
  let lowered := t.data.map Char.toLower
  let stripped := pyStrip lowered
  let kept := stripped.filter (fun c => c.isAlphanum || isPySpace c)
  List.intercalate [' '] (pySplit kept)

/- seen_titles is a Python dict keyed by normalized title; modelled as an
   insertion-ordered association list with first-match lookup and in-place
   update. -/

def dictGet (d : List (List Char × PaperMetadata)) (k : List Char) : Option PaperMetadata :=
  (d.find? (fun kv => kv.1 = k)).map (fun kv => kv.2)

def dictSet (d : List (List Char × PaperMetadata)) (k : List Char) (v : PaperMetadata) :
    List (List Char × PaperMetadata) :=
  match d with
  | [] => [(k, v)]
  | kv :: rest => if kv.1 = k then (k, v) :: rest else kv :: dictSet rest k v

structure DedupState where
  seen_titles : List (List Char × PaperMetadata)
  seen_ids : List String
  result : List PaperMetadata

/-- One iteration of the loop body of deduplicate_papers.  The id is added to
seen_ids before the title check, exactly as in the source. -/
def dedupStep (st : DedupState) (paper : PaperMetadata) : DedupState :=
  if paper.paper_id ∈ st.seen_ids then st
  else
    match dictGet st.seen_titles (normalizedTitle paper.title) with
    | some existing =>
      if paper.source = PaperSource.semantic_scholar then
        { seen_titles := dictSet st.seen_titles (normalizedTitle paper.title) paper,
          seen_ids := paper.paper_id :: st.seen_ids,
          result := (st.result.filter (fun p => p.paper_id ≠ existing.paper_id)) ++ [paper] }
      else
        { seen_titles := st.seen_titles,
          seen_ids := paper.paper_id :: st.seen_ids,
          result := st.result }
    | none =>
      { seen_titles := dictSet st.seen_titles (normalizedTitle paper.title) paper,
        seen_ids := paper.paper_id :: st.seen_ids,
        result := st.result ++ [paper] }

def deduplicate_papers (papers : List PaperMetadata) : List PaperMetadata :=
  (papers.foldl dedupStep ⟨[], [], []⟩).result

/- Request-adapter post-processing from app/main.py (the final-draft block
   shared by approve_papers and continue_research): rewrite in-range
   \x7bcite:N\x7d markers to [N], drop out-of-range ones, then set
   cited_paper_ids from the bracketed numbers found in the rewritten text. -/

def approvedList (candidates : List PaperMetadata) : List PaperMetadata :=
  candidates.filter (fun p => p.is_approved)

def postprocessSection (approvedIds : List String) (s : ReviewSection) : ReviewSection :=
  let maxIndex := approvedIds.length
  let content2 := citeSub maxIndex s.content
  let citedIndices := (bracketFinds content2).filter (fun n => decide (1 ≤ n ∧ n ≤ maxIndex))
  { s with
    content := content2,
    cited_paper_ids := (sortedSet citedIndices).map (fun i => approvedIds.getD (i - 1) "") }

def postprocessDraft (approved : List PaperMetadata) (d : DraftOutput) : DraftOutput :=
  { d with
    sections := d.sections.map (postprocessSection (approved.map (fun p => p.paper_id))) }

/- Critic stage from backend/nodes.py (critic_agent).  Layer 1 is the
   structural citation check; layer 2 (semantic claim verification) is an
   external LLM interaction, modelled by an oracle giving either the
   verification summary or the exception it raised.  Python set iteration over
   the small integer indices of one section is modelled canonically by the
   sorted distinct list. -/

def hallucinatedError (sectionIdx numPapers idx : Nat) : String :=
  "Section " ++ Nat.repr (sectionIdx + 1) ++ ": Hallucinated citation index " ++
    Nat.repr idx ++ " (valid range: 1-" ++ Nat.repr numPapers ++ ")"

def noCitationsError (sectionIdx : Nat) : String :=
  "Section " ++ Nat.repr (sectionIdx + 1) ++ ": No citations found in content"

def missingCitationError (idx : Nat) : String :=
  "Missing citation: paper [" ++ Nat.repr idx ++ "] was approved but not cited"

def layer1SectionErrors (numPapers sectionIdx : Nat) (s : ReviewSection) : List String :=
  ((sortedSet (citeFinds s.content)).filter
      (fun idx => decide (¬(1 ≤ idx ∧ idx ≤ numPapers)))).map
    (hallucinatedError sectionIdx numPapers) ++
  (if sortedSet (citeFinds s.content) = [] then [noCitationsError sectionIdx] else [])

def allCitedIndices (sections : List ReviewSection) : List Nat :=
  sections.flatMap (fun s => citeFinds s.content)

def layer1Errors (numPapers : Nat) (sections : List ReviewSection) : List String :=
  (sections.enum.flatMap (fun p => layer1SectionErrors numPapers p.1 p.2)) ++
    ((List.range' 1 numPapers).filter
        (fun idx => decide (idx ∉ allCitedIndices sections))).map missingCitationError

inductive EntailmentLabel where
  | entails
  | insufficient
  | contradicts
deriving DecidableEq

def labelValue : EntailmentLabel → String
  | EntailmentLabel.entails => "entails"
  | EntailmentLabel.insufficient => "insufficient"
  | EntailmentLabel.contradicts => "contradicts"

structure ClaimVerificationResult where
  claim_text : String
  citation_index : Nat
  label : EntailmentLabel
  rationale : String
deriving DecidableEq

structure ClaimVerificationSummary where
  total_verifications : Nat
  entails_count : Nat
  failed_verifications : List ClaimVerificationResult
deriving DecidableEq

def CLAIM_VERIFICATION_ENABLED : Bool := true

/-- MIN_ENTAILMENT_RATIO = 0.8 from constants.py, as an exact rational. -/
def minEntailmentThreshold : ℚ := 0.8

/-- The failure detail string built for each of the top-3 failed verifications. -/
def formatFailedVerification (v : ClaimVerificationResult) : String :=
  "Claim \x27" ++ v.claim_text.take 50 ++ "...\x27 citing [" ++
    Nat.repr v.citation_index ++ "] (" ++ labelValue v.label ++ "): " ++
    v.rationale.take 100

structure CriticOutcome where
  qa_errors : List String
  retry_count : Nat
  ran_semantic : Bool
deriving DecidableEq

def critic_agent (verify : Except Unit ClaimVerificationSummary) (enabled : Bool)
    (approved : List PaperMetadata) (draft : Option DraftOutput)
    (retry_count : Nat) : CriticOutcome :=
  match draft with
  | none => ⟨[], retry_count, false⟩
  | some d =>
    if layer1Errors approved.length d.sections ≠ [] then
      ⟨layer1Errors approved.length d.sections, retry_count + 1, false⟩
    else if enabled && decide (approved ≠ []) then
      match verify with
      | Except.error _ => ⟨[], retry_count, true⟩
      | Except.ok summary =>
        if 0 < summary.total_verifications ∧
            (summary.entails_count : ℚ) / (summary.total_verifications : ℚ) <
              minEntailmentThreshold then
          ⟨(summary.failed_verifications.take 3).map formatFailedVerification,
            retry_count + 1, true⟩
        else ⟨[], retry_count, true⟩
    else ⟨[], retry_count, false⟩

/- Conditional edge out of the Critic, from backend/workflow.py (_qa_router),
   and the Writer-Critic retry loop it drives.  The loop abstracts one Writer
   execution followed by one Critic execution; the oracle gives the error list
   the Critic produces on each Writer attempt (empty = QA passed), matching
   critic_agent, which increments retry_count exactly when it stores a
   non-empty error list. -/

def MAX_RETRY_COUNT : Nat := 3

inductive Route where
  | writer_agent
  | end_route
deriving DecidableEq

def _qa_router (qa_errors : List String) (retry_count : Nat) : Route :=
  if qa_errors = [] then Route.end_route
  else if retry_count < MAX_RETRY_COUNT then Route.writer_agent
  else Route.end_route

/-- Retry-count update the Critic applies when it reports the given errors. -/
def criticRetryUpdate (errors : List String) (retry_count : Nat) : Nat :=
  if errors = [] then retry_count else retry_count + 1

/-- Writer-Critic loop: `attempt` counts the Writer execution that just ran
(1-based); returns (total Writer executions, final retry_count). -/
def qaLoop (oracle : Nat → List String) (attempt retry_count : Nat) : Nat × Nat :=
  match hroute : _qa_router (oracle attempt) (criticRetryUpdate (oracle attempt) retry_count) with
  | Route.writer_agent =>
    qaLoop oracle (attempt + 1) (criticRetryUpdate (oracle attempt) retry_count)
  | Route.end_route => (attempt, criticRetryUpdate (oracle attempt) retry_count)
termination_by MAX_RETRY_COUNT - retry_count
decreasing_by
  simp only [_qa_router, criticRetryUpdate, MAX_RETRY_COUNT] at hroute ⊢
  by_cases he : oracle attempt = []
  · simp [he] at hroute
  · simp only [if_neg he] at hroute ⊢
    by_cases hlt : retry_count + 1 < 3
    · omega
    · simp [if_neg hlt] at hroute

/- Streaming event queue from backend/utils/event_queue.py
   (StreamingEventQueue).  The cooperative single-threaded execution is
   modelled as a sequence of operations on an explicit state; the background
   timer task is a timerFlush operation whose boolean says whether 200 ms have
   elapsed since the last flush. -/

structure QueueState where
  buffer : List String
  queue : List (Option String)
  closed : Bool
  stats_total_tokens : Nat
  stats_total_flushes : Nat
deriving DecidableEq

def initialQueue : QueueState := ⟨[], [], false, 0, 0⟩

def SEMANTIC_BOUNDARIES : List Char := ['。', '！', '？', '.', '!', '?', '\n']

def containsBoundary (t : String) : Bool :=
  t.data.any (fun c => SEMANTIC_BOUNDARIES.contains c)

/-- _try_flush: flush the buffer when forced or when the time window elapsed. -/
def tryFlush (force timeOk : Bool) (s : QueueState) : QueueState :=
  if s.buffer = [] then s
  else if force || timeOk then
    { s with
      buffer := [],
      queue := s.queue ++ [some (String.join s.buffer)],
      stats_total_flushes := s.stats_total_flushes + 1 }
  else s

def push (t : String) (s : QueueState) : QueueState :=
  if s.closed then s
  else
    let s2 := { s with
      buffer := s.buffer ++ [t],
      stats_total_tokens := s.stats_total_tokens + 1 }
    if containsBoundary t then tryFlush true false s2 else s2

def close (s : QueueState) : QueueState :=
  if s.closed then s
  else
    let s2 := { s with closed := true }
    let s3 :=
      if s2.buffer = [] then s2
      else
        { s2 with
          buffer := [],
          queue := s2.queue ++ [some (String.join s2.buffer)],
          stats_total_flushes := s2.stats_total_flushes + 1 }
    { s3 with queue := s3.queue ++ [none] }

inductive QueueOp where
  | push (t : String)
  | timerFlush (timeOk : Bool)

def applyOp (s : QueueState) : QueueOp → QueueState
  | QueueOp.push t => push t s
  | QueueOp.timerFlush timeOk => tryFlush false timeOk s

/-- A producer session: the given operations on a started queue, then close. -/
def runOps (ops : List QueueOp) : QueueState := close (ops.foldl applyOp initialQueue)

/-- consume(): chunks yielded until the sentinel None. -/
def consumeChunks : List (Option String) → List String
  | [] => []
  | none :: _ => []
  | some c :: rest => c :: consumeChunks rest

def pushedTokens (ops : List QueueOp) : List String :=
  ops.filterMap (fun op => match op with | QueueOp.push t => some t | _ => none)

/- Extractor stage from backend/nodes.py (_extract_contribution and
   extractor_agent) and the full-text enricher from app/utils/fulltext_api.py.
   The two concurrent LLM calls per paper are modelled by an oracle that
   either raises (Except.error, for any structured_completion failure) or
   returns both results; asyncio.gather(..., return_exceptions=True) delivers
   per-paper outcomes in input order, which the zip in the source consumes. -/

structure StructuredExtractionResult where
  problem : Option String := none
  method : Option String := none
  novelty : Option String := none
  dataset : Option String := none
  baseline : Option String := none
  results : Option String := none
  limitations : Option String := none
  future_work : Option String := none
deriving DecidableEq

/-- Python `x or None` on an optional string: the empty string becomes None. -/
def orNone : Option String → Option String
  | none => none
  | some s => if s = "" then none else some s

def _extract_contribution (llm : Except Unit (String × StructuredExtractionResult))
    (paper : PaperMetadata) : Except Unit PaperMetadata :=
  match llm with
  | Except.error e => Except.error e
  | Except.ok (core, st) =>
    if core = "" ∨ pyStrip core.data = [] then Except.error ()
    else
      Except.ok
        { paper with
          core_contribution := some core,
          structured_contribution := some
            { problem := orNone st.problem,
              method := orNone st.method,
              novelty := orNone st.novelty,
              dataset := orNone st.dataset,
              baseline := orNone st.baseline,
              results := orNone st.results,
              limitations := orNone st.limitations,
              future_work := orNone st.future_work } }

/-- resolve_pdf_url outcome for one paper: (pdf_url, doi) or an exception. -/
def enrich_paper_with_fulltext (resolve : Except Unit (Option String × Option String))
    (paper : PaperMetadata) : Except Unit PaperMetadata :=
  if paper.pdf_url ≠ none then Except.ok paper
  else
    match resolve with
    | Except.error e => Except.error e
    | Except.ok (pdf, d) =>
      let p1 := match pdf with
        | some u => { paper with pdf_url := some u }
        | none => paper
      let p2 := match d, paper.doi with
        | some d2, none => { p1 with doi := some d2 }
        | _, _ => p1
      Except.ok p2

/-- enrich_with_limit: any per-paper exception falls back to the input paper. -/
def enrichWithLimit (resolve : Except Unit (Option String × Option String))
    (paper : PaperMetadata) : PaperMetadata :=
  match enrich_paper_with_fulltext resolve paper with
  | Except.ok p => p
  | Except.error _ => paper

def enrich_papers_with_fulltext
    (resolveOracle : PaperMetadata → Except Unit (Option String × Option String))
    (papers : List PaperMetadata) : List PaperMetadata :=
  papers.map (fun p => enrichWithLimit (resolveOracle p) p)

/-- The local `extracted` list of extractor_agent: the per-paper outcomes in
input order with the failures dropped. -/
def extractedPapers
    (llmOracle : PaperMetadata → Except Unit (String × StructuredExtractionResult))
    (approved : List PaperMetadata) : List PaperMetadata :=
  (approved.map (fun p => _extract_contribution (llmOracle p) p)).filterMap Except.toOption

/-- The local `failed_count` of extractor_agent. -/
def extractFailedCount
    (llmOracle : PaperMetadata → Except Unit (String × StructuredExtractionResult))
    (approved : List PaperMetadata) : Nat :=
  (approved.map (fun p => _extract_contribution (llmOracle p) p)).countP
    (fun r => r.toOption = none)

/-- extractor_agent: returns (approved_papers written to state, failed count). -/
def extractor_agent
    (llmOracle : PaperMetadata → Except Unit (String × StructuredExtractionResult))
    (resolveOracle : PaperMetadata → Except Unit (Option String × Option String))
    (candidates : List PaperMetadata) : List PaperMetadata × Nat :=
  if candidates.filter (fun p => p.is_approved) = [] then ([], 0)
  else
    ((if (extractedPapers llmOracle (candidates.filter (fun p => p.is_approved))).filter
          (fun p => p.pdf_url.isNone) = [] then
        extractedPapers llmOracle (candidates.filter (fun p => p.is_approved))
      else
        enrich_papers_with_fulltext resolveOracle
          (extractedPapers llmOracle (candidates.filter (fun p => p.is_approved)))),
      extractFailedCount llmOracle (candidates.filter (fun p => p.is_approved)))

/- Source failure tracker from backend/utils/source_tracker.py.  The module
   dict _failures is an association list; timestamps are exact rationals. -/

def SOURCE_SKIP_THRESHOLD : Nat := 3

def SOURCE_SKIP_WINDOW_SECONDS : ℚ := 120

abbrev FailureMap := List (String × List ℚ)

/-- _failures.get(source, []). -/
def failuresGet (m : FailureMap) (src : String) : List ℚ :=
  ((m.find? (fun kv => kv.1 = src)).map (fun kv => kv.2)).getD []

/-- _failures[source] = v (insert or overwrite in place). -/
def failuresSet (m : FailureMap) (src : String) (v : List ℚ) : FailureMap :=
  match m with
  | [] => [(src, v)]
  | kv :: rest => if kv.1 = src then (src, v) :: rest else kv :: failuresSet rest src v

/-- _failures.pop(source, None). -/
def failuresPop (m : FailureMap) (src : String) : FailureMap :=
  m.filter (fun kv => kv.1 ≠ src)

/-- should_skip: drop stale timestamps (side effect) and compare the count. -/
def should_skip (now : ℚ) (src : String) (m : FailureMap) : Bool × FailureMap :=
  let times := failuresGet m src
  let recent := times.filter (fun t => now - t < SOURCE_SKIP_WINDOW_SECONDS)
  (decide (SOURCE_SKIP_THRESHOLD ≤ recent.length), failuresSet m src recent)

def record_failure (now : ℚ) (src : String) (m : FailureMap) : FailureMap :=
  failuresSet m src (failuresGet m src ++ [now])

def record_success (src : String) (m : FailureMap) : FailureMap :=
  failuresPop m src

/- Semantic Scholar fetch with retry, from backend/utils/scholar_api.py
   (_fetch_semantic_scholar under tenacity @retry).  The oracle gives the HTTP
   response of each attempt (1-based).  RateLimitError (429) and ClientError
   are retried with wait_exponential(multiplier=1, min=2, max=10) up to
   stop_after_attempt(3); any other non-200 status raises ScholarAPIError,
   which is not retried.  On a 429 the handler itself first sleeps for the
   Retry-After value.  The event trace records attempts and sleeps in order. -/

inductive SSResp where
  | rateLimited (retryAfter : Option String)
  | clientError
  | okResp
  | errorStatus (code : Nat)

/-- Python str.isdigit restricted to ASCII decimal digits. -/
def pyIsDigit (s : String) : Bool :=
  match s.data with
  | [] => false
  | l => l.all Char.isDigit

/-- Seconds slept on a 429: int(Retry-After) when digits, else 3; a missing
header defaults to the string "3". -/
def retryAfterWait (header : Option String) : Nat :=
  let ra := header.getD ("3")
  if pyIsDigit ra then digitsToNat ra.data else 3

/-- tenacity wait_exponential(multiplier=1, min=2, max=10) before retry k+1. -/
def backoffWait (attemptNumber : Nat) : Nat :=
  min 10 (max 2 (2 ^ (attemptNumber - 1)))

inductive FetchEvent where
  | attempt (k : Nat)
  | sleepRetryAfter (secs : Nat)
  | sleepBackoff (secs : Nat)
deriving DecidableEq

inductive FetchResult where
  | success
  | failedExhausted
  | failedStatus (code : Nat)
deriving DecidableEq

def stopAfterAttempts : Nat := 3

/-- The retry driver: `remaining` attempts are still allowed, the next one is
attempt number `k`. -/
def fetchGo (oracle : Nat → SSResp) : Nat → Nat → FetchResult × List FetchEvent
  | 0, _ => (FetchResult.failedExhausted, [])
  | remaining + 1, k =>
    match oracle k, remaining with
    | SSResp.okResp, _ => (FetchResult.success, [FetchEvent.attempt k])
    | SSResp.errorStatus c, _ => (FetchResult.failedStatus c, [FetchEvent.attempt k])
    | SSResp.clientError, 0 => (FetchResult.failedExhausted, [FetchEvent.attempt k])
    | SSResp.clientError, r + 1 =>
      ((fetchGo oracle (r + 1) (k + 1)).1,
        FetchEvent.attempt k :: FetchEvent.sleepBackoff (backoffWait k) ::
          (fetchGo oracle (r + 1) (k + 1)).2)
    | SSResp.rateLimited h, 0 =>
      (FetchResult.failedExhausted,
        [FetchEvent.attempt k, FetchEvent.sleepRetryAfter (retryAfterWait h)])
    | SSResp.rateLimited h, r + 1 =>
      ((fetchGo oracle (r + 1) (k + 1)).1,
        FetchEvent.attempt k :: FetchEvent.sleepRetryAfter (retryAfterWait h) ::
          FetchEvent.sleepBackoff (backoffWait k) :: (fetchGo oracle (r + 1) (k + 1)).2)

def _fetch_semantic_scholar (oracle : Nat → SSResp) : FetchResult × List FetchEvent :=
  fetchGo oracle stopAfterAttempts 1

/- Lemmas about the association-list dictionary of the failure tracker. -/

theorem failuresGet_set_self (m : FailureMap) (src : String) (v : List ℚ) :
    failuresGet (failuresSet m src v) src = v := by
  induction m with
  | nil =>
    simp [failuresGet, failuresSet]
  | cons kv rest ih =>
    unfold failuresSet
    by_cases h : kv.1 = src
    · rw [if_pos h]
      simp [failuresGet]
    · rw [if_neg h]
      unfold failuresGet at ih ⊢
      rw [List.find?_cons_of_neg]
      · exact ih
      · simp [h]

theorem failuresGet_pop (m : FailureMap) (src : String) :
    failuresGet (failuresPop m src) src = [] := by
  have hnone : (failuresPop m src).find? (fun kv => kv.1 = src) = none := by
    rw [List.find?_eq_none]
    intro x hx
    simp only [failuresPop, List.mem_filter, decide_eq_true_eq] at hx
    simp [hx.2]
  simp [failuresGet, hnone]

/-- C8: should_skip(source) is true exactly when at least
SOURCE_SKIP_THRESHOLD = 3 recorded failure timestamps fall within the last
SOURCE_SKIP_WINDOW_SECONDS = 120 seconds; the check drops the older
timestamps from the record as a side effect; and record_success(source)
clears the whole failure history of that source, so should_skip is false
immediately afterwards. -/
theorem c8_source_tracker (m : FailureMap) (src : String) (now : ℚ) :
    ((should_skip now src m).1 = true ↔
      SOURCE_SKIP_THRESHOLD ≤
        ((failuresGet m src).filter
            (fun t => now - t < SOURCE_SKIP_WINDOW_SECONDS)).length)
    ∧ failuresGet (should_skip now src m).2 src =
        (failuresGet m src).filter (fun t => now - t < SOURCE_SKIP_WINDOW_SECONDS)
    ∧ (∀ now2 : ℚ, (should_skip now2 src (record_success src m)).1 = false) := by
  refine ⟨?_, ?_, ?_⟩
  · simp [should_skip]
  · simp [should_skip, failuresGet_set_self]
  · intro now2
    simp [should_skip, record_success, failuresGet_pop, SOURCE_SKIP_THRESHOLD]

/-- C8 witness: with failures at times 0, 50, 100 and now = 110 all three are
inside the 120 s window, so the source is skipped; after record_success it is
not. -/
theorem c8_source_tracker_witness :
    (should_skip 110 "arxiv" [("arxiv", [0, 50, 100])]).1 = true
    ∧ (should_skip 110 "arxiv"
        (record_success "arxiv" [("arxiv", [0, 50, 100])])).1 = false := by
  constructor
  · apply (c8_source_tracker [("arxiv", [0, 50, 100])] "arxiv" 110).1.mpr
    norm_num [failuresGet, SOURCE_SKIP_THRESHOLD, SOURCE_SKIP_WINDOW_SECONDS,
      List.filter_cons]
  · exact (c8_source_tracker [("arxiv", [0, 50, 100])] "arxiv" 110).2.2 110

/-- C10: once close() has completed, a push is a silent no-op: the state —
buffer, queue contents (so no chunk is emitted for the token) and both
statistics counters — is unchanged. -/
theorem c10_push_after_close (s : QueueState) (t : String) :
    push t (close s) = close s := by
  have hclosed : (close s).closed = true := by
    unfold close
    by_cases h : s.closed
    · simp [h]
    · simp only [h, Bool.false_eq_true, if_false]
      by_cases hb : s.buffer = [] <;> simp [hb]
  unfold push
  simp [hclosed]

/-- C10 witness: pushing a concrete token into a freshly closed queue changes
nothing. -/
theorem c10_push_after_close_witness :
    push ("hello") (close initialQueue) = close initialQueue :=
  c10_push_after_close initialQueue ("hello")

def isAttempt : FetchEvent → Bool
  | FetchEvent.attempt _ => true
  | _ => false

theorem fetchGo_ok (oracle : Nat → SSResp) (remaining k : Nat)
    (h : oracle k = SSResp.okResp) :
    fetchGo oracle (remaining + 1) k = (FetchResult.success, [FetchEvent.attempt k]) := by
  cases remaining <;> simp [fetchGo, h]

theorem fetchGo_status (oracle : Nat → SSResp) (remaining k c : Nat)
    (h : oracle k = SSResp.errorStatus c) :
    fetchGo oracle (remaining + 1) k = (FetchResult.failedStatus c, [FetchEvent.attempt k]) := by
  cases remaining <;> simp [fetchGo, h]

theorem fetchGo_client_last (oracle : Nat → SSResp) (k : Nat)
    (h : oracle k = SSResp.clientError) :
    fetchGo oracle 1 k = (FetchResult.failedExhausted, [FetchEvent.attempt k]) := by
  simp [fetchGo, h]

theorem fetchGo_client_retry (oracle : Nat → SSResp) (r k : Nat)
    (h : oracle k = SSResp.clientError) :
    fetchGo oracle (r + 1 + 1) k =
      ((fetchGo oracle (r + 1) (k + 1)).1,
        FetchEvent.attempt k :: FetchEvent.sleepBackoff (backoffWait k) ::
          (fetchGo oracle (r + 1) (k + 1)).2) := by
  simp [fetchGo, h]

theorem fetchGo_rate_last (oracle : Nat → SSResp) (k : Nat) (hdr : Option String)
    (h : oracle k = SSResp.rateLimited hdr) :
    fetchGo oracle 1 k =
      (FetchResult.failedExhausted,
        [FetchEvent.attempt k, FetchEvent.sleepRetryAfter (retryAfterWait hdr)]) := by
  simp [fetchGo, h]

theorem fetchGo_rate_retry (oracle : Nat → SSResp) (r k : Nat) (hdr : Option String)
    (h : oracle k = SSResp.rateLimited hdr) :
    fetchGo oracle (r + 1 + 1) k =
      ((fetchGo oracle (r + 1) (k + 1)).1,
        FetchEvent.attempt k :: FetchEvent.sleepRetryAfter (retryAfterWait hdr) ::
          FetchEvent.sleepBackoff (backoffWait k) :: (fetchGo oracle (r + 1) (k + 1)).2) := by
  simp [fetchGo, h]

theorem fetchGo_trace (oracle : Nat → SSResp) :
    ∀ remaining k,
      (((fetchGo oracle remaining k).2.filter isAttempt).length ≤ remaining)
      ∧ (∀ w, FetchEvent.sleepRetryAfter w ∈ (fetchGo oracle remaining k).2 →
          ∃ j h, k ≤ j ∧ j < k + remaining ∧ oracle j = SSResp.rateLimited h ∧
            w = retryAfterWait h)
      ∧ (∀ w, FetchEvent.sleepBackoff w ∈ (fetchGo oracle remaining k).2 →
          ∃ j, k ≤ j ∧ j + 1 < k + remaining ∧ w = backoffWait j)
      ∧ (∀ j h, FetchEvent.attempt j ∈ (fetchGo oracle remaining k).2 →
          oracle j = SSResp.rateLimited h →
          FetchEvent.sleepRetryAfter (retryAfterWait h) ∈ (fetchGo oracle remaining k).2) := by
  intro remaining
  induction remaining with
  | zero =>
    intro k
    simp [fetchGo]
  | succ remaining ih =>
    intro k
    cases horacle : oracle k with
    | okResp =>
      rw [fetchGo_ok oracle remaining k horacle]
      refine ⟨by simp [isAttempt], by simp, by simp, ?_⟩
      intro j h hj hor
      simp only [List.mem_cons, List.not_mem_nil, or_false] at hj
      obtain rfl : j = k := by simpa using hj
      rw [horacle] at hor
      exact absurd hor (by simp)
    | errorStatus c =>
      rw [fetchGo_status oracle remaining k c horacle]
      refine ⟨by simp [isAttempt], by simp, by simp, ?_⟩
      intro j h hj hor
      simp only [List.mem_cons, List.not_mem_nil, or_false] at hj
      obtain rfl : j = k := by simpa using hj
      rw [horacle] at hor
      exact absurd hor (by simp)
    | clientError =>
      cases remaining with
      | zero =>
        rw [fetchGo_client_last oracle k horacle]
        refine ⟨by simp [isAttempt], by simp, by simp, ?_⟩
        intro j h hj hor
        simp only [List.mem_cons, List.not_mem_nil, or_false] at hj
        obtain rfl : j = k := by simpa using hj
        rw [horacle] at hor
        exact absurd hor (by simp)
      | succ r =>
        obtain ⟨ha, hra, hbo, hfollow⟩ := ih (k + 1)
        rw [fetchGo_client_retry oracle r k horacle]
        refine ⟨?_, ?_, ?_, ?_⟩
        · simp only [List.filter, isAttempt, List.length_cons]
          omega
        · intro w hw
          simp only [List.mem_cons] at hw
          rcases hw with h1 | h1 | h1
          · exact absurd h1 (by simp)
          · exact absurd h1 (by simp)
          · obtain ⟨j, h2, hj1, hj2, hj3, hj4⟩ := hra w h1
            exact ⟨j, h2, by omega, by omega, hj3, hj4⟩
        · intro w hw
          simp only [List.mem_cons] at hw
          rcases hw with h1 | h1 | h1
          · exact absurd h1 (by simp)
          · obtain rfl : w = backoffWait k := by simpa using h1
            exact ⟨k, Nat.le_refl k, by omega, rfl⟩
          · obtain ⟨j, hj1, hj2, hj3⟩ := hbo w h1
            exact ⟨j, by omega, by omega, hj3⟩
        · intro j h hj hor
          simp only [List.mem_cons] at hj ⊢
          rcases hj with h1 | h1 | h1
          · obtain rfl : j = k := by simpa using h1
            rw [horacle] at hor
            exact absurd hor (by simp)
          · exact absurd h1 (by simp)
          · exact Or.inr (Or.inr (hfollow j h h1 hor))
    | rateLimited hdr =>
      cases remaining with
      | zero =>
        rw [fetchGo_rate_last oracle k hdr horacle]
        refine ⟨?_, ?_, ?_, ?_⟩
        · simp [isAttempt, List.filter]
        · intro w hw
          simp only [List.mem_cons, List.not_mem_nil, or_false] at hw
          rcases hw with h1 | h1
          · exact absurd h1 (by simp)
          · obtain rfl : w = retryAfterWait hdr := by simpa using h1
            exact ⟨k, hdr, Nat.le_refl k, by omega, horacle, rfl⟩
        · intro w hw
          simp only [List.mem_cons, List.not_mem_nil, or_false] at hw
          rcases hw with h1 | h1
          · exact absurd h1 (by simp)
          · exact absurd h1 (by simp)
        · intro j h hj hor
          simp only [List.mem_cons, List.not_mem_nil, or_false] at hj ⊢
          rcases hj with h1 | h1
          · obtain rfl : j = k := by simpa using h1
            rw [horacle] at hor
            obtain rfl : hdr = h := by simpa using hor
            simp
          · exact absurd h1 (by simp)
      | succ r =>
        obtain ⟨ha, hra, hbo, hfollow⟩ := ih (k + 1)
        rw [fetchGo_rate_retry oracle r k hdr horacle]
        refine ⟨?_, ?_, ?_, ?_⟩
        · simp only [List.filter, isAttempt, List.length_cons]
          omega
        · intro w hw
          simp only [List.mem_cons] at hw
          rcases hw with h1 | h1 | h1 | h1
          · exact absurd h1 (by simp)
          · obtain rfl : w = retryAfterWait hdr := by simpa using h1
            exact ⟨k, hdr, Nat.le_refl k, by omega, horacle, rfl⟩
          · exact absurd h1 (by simp)
          · obtain ⟨j, h2, hj1, hj2, hj3, hj4⟩ := hra w h1
            exact ⟨j, h2, by omega, by omega, hj3, hj4⟩
        · intro w hw
          simp only [List.mem_cons] at hw
          rcases hw with h1 | h1 | h1 | h1
          · exact absurd h1 (by simp)
          · exact absurd h1 (by simp)
          · obtain rfl : w = backoffWait k := by simpa using h1
            exact ⟨k, Nat.le_refl k, by omega, rfl⟩
          · obtain ⟨j, hj1, hj2, hj3⟩ := hbo w h1
            exact ⟨j, by omega, by omega, hj3⟩
        · intro j h hj hor
          simp only [List.mem_cons] at hj ⊢
          rcases hj with h1 | h1 | h1 | h1
          · obtain rfl : j = k := by simpa using h1
            rw [horacle] at hor
            obtain rfl : hdr = h := by simpa using hor
            simp
          · exact absurd h1 (by simp)
          · exact absurd h1 (by simp)
          · exact Or.inr (Or.inr (Or.inr (hfollow j h h1 hor)))

/-- C9: on an HTTP 429 from the Semantic Scholar search the client sleeps for
the Retry-After value — int(header) when the header is all digits, 3 seconds
when it is missing or non-numeric — and the request is retried under
exponential backoff waits of min(10, max(2, 2^(k-1))) seconds, with at most 3
total attempts. -/
theorem c9_semantic_scholar_rate_limit (oracle : Nat → SSResp) :
    (((_fetch_semantic_scholar oracle).2.filter isAttempt).length ≤ 3)
    ∧ (∀ w, FetchEvent.sleepRetryAfter w ∈ (_fetch_semantic_scholar oracle).2 →
        ∃ j h, oracle j = SSResp.rateLimited h ∧ w = retryAfterWait h)
    ∧ (∀ j h, FetchEvent.attempt j ∈ (_fetch_semantic_scholar oracle).2 →
        oracle j = SSResp.rateLimited h →
        FetchEvent.sleepRetryAfter (retryAfterWait h) ∈ (_fetch_semantic_scholar oracle).2)
    ∧ (∀ w, FetchEvent.sleepBackoff w ∈ (_fetch_semantic_scholar oracle).2 →
        ∃ j, 1 ≤ j ∧ j < 3 ∧ w = min 10 (max 2 (2 ^ (j - 1))))
    ∧ retryAfterWait none = 3
    ∧ (∀ s : String, pyIsDigit s = false → retryAfterWait (some s) = 3)
    ∧ (∀ s : String, pyIsDigit s = true → retryAfterWait (some s) = digitsToNat s.data) := by
  obtain ⟨ha, hra, hbo, hfollow⟩ := fetchGo_trace oracle 3 1
  refine ⟨ha, ?_, hfollow, ?_, by decide, ?_, ?_⟩
  · intro w hw
    obtain ⟨j, h, -, -, hj3, hj4⟩ := hra w hw
    exact ⟨j, h, hj3, hj4⟩
  · intro w hw
    obtain ⟨j, hj1, hj2, hj3⟩ := hbo w hw
    exact ⟨j, hj1, by omega, hj3⟩
  · intro s hs
    simp [retryAfterWait, hs]
  · intro s hs
    simp [retryAfterWait, hs]

/-- C9 witness: an always-rate-limited service with no Retry-After header is
attempted at most 3 times, a non-numeric header waits 3 s, and a numeric
header waits its value. -/
theorem c9_semantic_scholar_rate_limit_witness :
    ((_fetch_semantic_scholar
        (fun _ => SSResp.rateLimited none)).2.filter isAttempt).length ≤ 3
    ∧ retryAfterWait (some ("soon")) = 3
    ∧ retryAfterWait (some ("7")) = digitsToNat ("7").data := by
  refine ⟨(c9_semantic_scholar_rate_limit (fun _ => SSResp.rateLimited none)).1, ?_, ?_⟩
  · exact (c9_semantic_scholar_rate_limit
      (fun _ => SSResp.rateLimited none)).2.2.2.2.2.1 ("soon") (by decide)
  · exact (c9_semantic_scholar_rate_limit
      (fun _ => SSResp.rateLimited none)).2.2.2.2.2.2 ("7") (by decide)

theorem qaLoop_bound (oracle : Nat → List String) :
    ∀ fuel attempt rc, rc ≤ 2 → 2 - rc ≤ fuel →
      (qaLoop oracle attempt rc).2 ≤ 3 ∧
        (qaLoop oracle attempt rc).1 ≤ attempt + (2 - rc) := by
  intro fuel
  induction fuel with
  | zero =>
    intro attempt rc h1 h2
    have hrc : rc = 2 := by omega
    subst hrc
    rw [qaLoop]
    split
    · rename_i hroute
      exfalso
      by_cases he : oracle attempt = []
      · simp [_qa_router, he] at hroute
      · simp [_qa_router, criticRetryUpdate, he, MAX_RETRY_COUNT] at hroute
    · rename_i hroute
      refine ⟨?_, ?_⟩
      · simp only [criticRetryUpdate]
        split <;> omega
      · simp
  | succ fuel ih =>
    intro attempt rc h1 h2
    rw [qaLoop]
    split
    · rename_i hroute
      by_cases he : oracle attempt = []
      · simp [_qa_router, he] at hroute
      · have hupd : criticRetryUpdate (oracle attempt) rc = rc + 1 := by
          simp [criticRetryUpdate, he]
        unfold _qa_router at hroute
        rw [if_neg he, hupd] at hroute
        by_cases hlt : rc + 1 < MAX_RETRY_COUNT
        · rw [hupd]
          have hlt3 : rc + 1 < 3 := by simpa [MAX_RETRY_COUNT] using hlt
          obtain ⟨ihA, ihB⟩ := ih (attempt + 1) (rc + 1) (by omega) (by omega)
          exact ⟨ihA, by omega⟩
        · rw [if_neg hlt] at hroute
          exact absurd hroute (by simp)
    · rename_i hroute
      refine ⟨?_, ?_⟩
      · simp only [criticRetryUpdate]
        split <;> omega
      · simp

/-- C1: the Critic conditional edge terminates when qa_errors is empty,
re-enters the Writer when qa_errors is non-empty and retry_count < 3, and
terminates with the current draft when retry_count >= 3; the Critic never
decreases the retry counter; consequently, in the Writer-Critic loop started
with retry_count = 0, the final retry_count is at most 3 and the Writer stage
executes at most 4 times. -/
theorem c1_critic_edge_and_retry_bound :
    (∀ rc, _qa_router [] rc = Route.end_route)
    ∧ (∀ e es rc, rc < MAX_RETRY_COUNT → _qa_router (e :: es) rc = Route.writer_agent)
    ∧ (∀ e es rc, MAX_RETRY_COUNT ≤ rc → _qa_router (e :: es) rc = Route.end_route)
    ∧ (∀ errs rc, rc ≤ criticRetryUpdate errs rc)
    ∧ (∀ oracle : Nat → List String,
        (qaLoop oracle 1 0).2 ≤ 3 ∧ (qaLoop oracle 1 0).1 ≤ 4) := by
  refine ⟨?_, ?_, ?_, ?_, ?_⟩
  · intro rc
    simp [_qa_router]
  · intro e es rc h
    simp [_qa_router, h]
  · intro e es rc h
    have hn : ¬ rc < MAX_RETRY_COUNT := by omega
    simp [_qa_router, hn]
  · intro errs rc
    simp only [criticRetryUpdate]
    split <;> omega
  · intro oracle
    obtain ⟨hA, hB⟩ := qaLoop_bound oracle 2 1 0 (by omega) (by omega)
    exact ⟨hA, by omega⟩

/-- C1 witness: the edge decisions at concrete states, and the loop bound for
a critic that always fails. -/
theorem c1_critic_edge_and_retry_bound_witness :
    _qa_router [] 0 = Route.end_route
    ∧ _qa_router [("bad citation")] 0 = Route.writer_agent
    ∧ _qa_router [("bad citation")] 3 = Route.end_route
    ∧ (qaLoop (fun _ => [("bad citation")]) 1 0).1 ≤ 4 :=
  ⟨c1_critic_edge_and_retry_bound.1 0,
    c1_critic_edge_and_retry_bound.2.1 ("bad citation") [] 0 (by decide),
    c1_critic_edge_and_retry_bound.2.2.1 ("bad citation") [] 3 (by decide),
    (c1_critic_edge_and_retry_bound.2.2.2.2 (fun _ => [("bad citation")])).2⟩

/- Character-level view of string concatenation, for the streaming queue. -/

def joinData (l : List String) : List Char := l.flatMap (fun s => s.data)

theorem foldl_append_data (l : List String) :
    ∀ acc : String, (l.foldl (fun r s => r ++ s) acc).data = acc.data ++ joinData l := by
  induction l with
  | nil =>
    intro acc
    simp [joinData]
  | cons s rest ih =>
    intro acc
    simp only [List.foldl_cons, joinData, List.flatMap_cons]
    rw [ih (acc ++ s)]
    simp [joinData, String.data_append]

theorem join_data (l : List String) : (String.join l).data = joinData l := by
  simpa [String.join] using foldl_append_data l ""

theorem flatten_map_data (l : List String) :
    (List.map String.data l).flatten = l.flatMap (fun s => s.data) := by
  induction l with
  | nil => rfl
  | cons s rest ih => simp [ih]

/-- The text accumulated in a queue state: emitted chunks then the buffer. -/
def queueChars (s : QueueState) : List Char :=
  joinData (s.queue.filterMap id) ++ joinData s.buffer

theorem tryFlush_spec (force timeOk : Bool) (s : QueueState) :
    (tryFlush force timeOk s).closed = s.closed
    ∧ queueChars (tryFlush force timeOk s) = queueChars s
    ∧ (∀ x ∈ (tryFlush force timeOk s).queue, x ∈ s.queue ∨ x ≠ none) := by
  unfold tryFlush
  by_cases hb : s.buffer = []
  · rw [if_pos hb]
    exact ⟨rfl, rfl, fun x hx => Or.inl hx⟩
  · rw [if_neg hb]
    by_cases hf : (force || timeOk) = true
    · rw [if_pos hf]
      refine ⟨rfl, ?_, ?_⟩
      · simp [queueChars, joinData, join_data, List.filterMap_append, flatten_map_data]
      · intro x hx
        simp only [List.mem_append, List.mem_singleton] at hx
        rcases hx with h | h
        · exact Or.inl h
        · subst h
          exact Or.inr (by simp)
    · rw [if_neg hf]
      exact ⟨rfl, rfl, fun x hx => Or.inl hx⟩

theorem push_spec (t : String) (s : QueueState) (hc : s.closed = false) :
    (push t s).closed = false
    ∧ queueChars (push t s) = queueChars s ++ t.data
    ∧ (∀ x ∈ (push t s).queue, x ∈ s.queue ∨ x ≠ none) := by
  unfold push
  rw [hc]
  simp only [Bool.false_eq_true, if_false]
  by_cases hbd : containsBoundary t = true
  · rw [if_pos hbd]
    obtain ⟨h1, h2, h3⟩ := tryFlush_spec true false
      { s with
        buffer := s.buffer ++ [t], closed := false,
        stats_total_tokens := s.stats_total_tokens + 1 }
    refine ⟨by rw [h1], ?_, ?_⟩
    · rw [h2]
      simp [queueChars, joinData, List.flatMap_append]
    · intro x hx
      exact h3 x hx
  · rw [if_neg hbd]
    refine ⟨rfl, ?_, ?_⟩
    · simp [queueChars, joinData, List.flatMap_append]
    · intro x hx
      exact Or.inl hx

theorem applyOp_spec (op : QueueOp) (s : QueueState) (hc : s.closed = false) :
    (applyOp s op).closed = false
    ∧ queueChars (applyOp s op) =
        queueChars s ++ joinData (pushedTokens [op])
    ∧ (∀ x ∈ (applyOp s op).queue, x ∈ s.queue ∨ x ≠ none) := by
  cases op with
  | push t =>
    obtain ⟨h1, h2, h3⟩ := push_spec t s hc
    refine ⟨?_, ?_, ?_⟩
    · simpa only [applyOp] using h1
    · simp only [applyOp]
      simpa [pushedTokens, joinData] using h2
    · simpa only [applyOp] using h3
  | timerFlush timeOk =>
    obtain ⟨h1, h2, h3⟩ := tryFlush_spec false timeOk s
    refine ⟨?_, ?_, ?_⟩
    · simp only [applyOp]
      rw [h1, hc]
    · simp only [applyOp]
      simpa [pushedTokens, joinData] using h2
    · simpa only [applyOp] using h3

theorem foldl_applyOp_spec (ops : List QueueOp) :
    ∀ s : QueueState, s.closed = false → (∀ x ∈ s.queue, x ≠ none) →
      (ops.foldl applyOp s).closed = false
      ∧ (∀ x ∈ (ops.foldl applyOp s).queue, x ≠ none)
      ∧ queueChars (ops.foldl applyOp s) = queueChars s ++ joinData (pushedTokens ops) := by
  induction ops with
  | nil =>
    intro s hc hq
    exact ⟨hc, hq, by simp [pushedTokens, joinData]⟩
  | cons op rest ih =>
    intro s hc hq
    obtain ⟨h1, h2, h3⟩ := applyOp_spec op s hc
    have hq2 : ∀ x ∈ (applyOp s op).queue, x ≠ none := by
      intro x hx
      rcases h3 x hx with h | h
      · exact hq x h
      · exact h
    obtain ⟨g1, g2, g3⟩ := ih (applyOp s op) h1 hq2
    refine ⟨g1, g2, ?_⟩
    rw [List.foldl_cons, g3, h2]
    cases op <;> simp [pushedTokens, joinData, List.append_assoc]

theorem consumeChunks_closed (q : List (Option String)) (hq : ∀ x ∈ q, x ≠ none) :
    consumeChunks (q ++ [none]) = q.filterMap id := by
  induction q with
  | nil => simp [consumeChunks]
  | cons x rest ih =>
    cases x with
    | none => exact absurd rfl (hq none (by simp))
    | some c =>
      rw [List.cons_append]
      rw [show consumeChunks (some c :: (rest ++ [none])) =
            c :: consumeChunks (rest ++ [none]) from rfl]
      rw [ih (fun y hy => hq y (by simp [hy]))]
      simp

theorem close_chars (s : QueueState) (hc : s.closed = false)
    (hq : ∀ x ∈ s.queue, x ≠ none) :
    joinData (consumeChunks (close s).queue) = queueChars s := by
  unfold close
  rw [hc]
  simp only [Bool.false_eq_true, if_false]
  by_cases hb : s.buffer = []
  · rw [if_pos hb]
    rw [consumeChunks_closed s.queue hq]
    simp [queueChars, hb, joinData]
  · rw [if_neg hb]
    rw [consumeChunks_closed (s.queue ++ [some (String.join s.buffer)])]
    · simp [queueChars, joinData, List.filterMap_append, join_data, flatten_map_data]
    · intro x hx
      simp only [List.mem_append, List.mem_singleton] at hx
      rcases hx with h | h
      · exact hq x h
      · subst h
        simp

/-- C6: for every session of pushes (with the background timer interleaved at
will) on a started queue, followed by close(), the concatenation of the
chunks yielded by consume() equals the concatenation of the pushed tokens in
push order. -/
theorem c6_stream_concat (ops : List QueueOp) :
    String.join (consumeChunks (runOps ops).queue) = String.join (pushedTokens ops) := by
  obtain ⟨h1, h2, h3⟩ := foldl_applyOp_spec ops initialQueue rfl (by simp [initialQueue])
  apply String.ext
  rw [join_data, join_data, runOps, close_chars (ops.foldl applyOp initialQueue) h1 h2, h3]
  simp [queueChars, initialQueue, joinData]

/-- C6 witness: a concrete session with a boundary flush, a timer flush and a
trailing buffered token reassembles exactly the pushed text. -/
theorem c6_stream_concat_witness :
    String.join (consumeChunks (runOps
        [QueueOp.push ("Hello, "), QueueOp.push ("world!"), QueueOp.timerFlush true,
          QueueOp.push (" Bye")]).queue) =
      ("Hello, world! Bye") := by
  rw [c6_stream_concat]
  decide

theorem _extract_contribution_id (llm : Except Unit (String × StructuredExtractionResult))
    (p q : PaperMetadata) (h : (_extract_contribution llm p).toOption = some q) :
    q.paper_id = p.paper_id := by
  unfold _extract_contribution at h
  split at h
  · exact absurd h (by simp [Except.toOption])
  · split at h
    · exact absurd h (by simp [Except.toOption])
    · simp only [Except.toOption] at h
      obtain rfl := Option.some.injEq .. ▸ h
      rfl

theorem enrichWithLimit_id (res : Except Unit (Option String × Option String))
    (p : PaperMetadata) : (enrichWithLimit res p).paper_id = p.paper_id := by
  unfold enrichWithLimit enrich_paper_with_fulltext
  by_cases hp : p.pdf_url ≠ none
  · simp [hp]
  · rw [if_neg hp]
    cases res with
    | error e => rfl
    | ok r =>
      obtain ⟨pdf, d⟩ := r
      cases pdf <;> cases d <;> cases hdoi : p.doi <;> simp [hdoi]

theorem extractOne_ids (extractOne : PaperMetadata → Except Unit PaperMetadata)
    (hid : ∀ p q, (extractOne p).toOption = some q → q.paper_id = p.paper_id) :
    ∀ l : List PaperMetadata,
      ((l.map extractOne).filterMap Except.toOption).map (fun p => p.paper_id) =
        (l.filter (fun p => (extractOne p).toOption.isSome)).map (fun p => p.paper_id) := by
  intro l
  induction l with
  | nil => rfl
  | cons p rest ih =>
    simp only [List.map_cons, List.filterMap_cons, List.filter_cons]
    cases hx : (extractOne p).toOption with
    | none => simpa [hx] using ih
    | some q =>
      simp only [hx, Option.isSome_some, if_pos]
      simp only [List.map_cons, ih, hid p q hx]

theorem filterMap_toOption_length (extractOne : PaperMetadata → Except Unit PaperMetadata) :
    ∀ l : List PaperMetadata,
      ((l.map extractOne).filterMap Except.toOption).length +
          (l.map extractOne).countP (fun r => r.toOption = none) = l.length := by
  intro l
  induction l with
  | nil => rfl
  | cons p rest ih =>
    simp only [List.map_cons, List.filterMap_cons, List.countP_cons]
    cases hx : (extractOne p).toOption with
    | none => simp [hx, ← ih]; omega
    | some q => simp [hx, ← ih]; omega

theorem enrich_ids (resolveOracle : PaperMetadata → Except Unit (Option String × Option String))
    (l : List PaperMetadata) :
    (enrich_papers_with_fulltext resolveOracle l).map (fun p => p.paper_id) =
      l.map (fun p => p.paper_id) := by
  unfold enrich_papers_with_fulltext
  rw [List.map_map]
  exact List.map_congr_left (fun p _ => enrichWithLimit_id (resolveOracle p) p)

/-- C7: paper-level extraction failures are isolated: an approved paper whose
extraction raises — including an empty or whitespace-only core_contribution,
which raises — is dropped from the resulting approved_papers and counted as
failed, the successfully extracted papers keep their input order, every
approved paper is either kept or counted, and the stage returns normally. -/
theorem c7_extractor_isolation
    (llmOracle : PaperMetadata → Except Unit (String × StructuredExtractionResult))
    (resolveOracle : PaperMetadata → Except Unit (Option String × Option String))
    (candidates : List PaperMetadata) :
    ((extractor_agent llmOracle resolveOracle candidates).1.map (fun p => p.paper_id) =
        ((candidates.filter (fun p => p.is_approved)).filter
            (fun p => (_extract_contribution (llmOracle p) p).toOption.isSome)).map
          (fun p => p.paper_id))
    ∧ ((extractor_agent llmOracle resolveOracle candidates).2 =
        (candidates.filter (fun p => p.is_approved)).countP
          (fun p => (_extract_contribution (llmOracle p) p).toOption = none))
    ∧ ((extractor_agent llmOracle resolveOracle candidates).1.length +
          (extractor_agent llmOracle resolveOracle candidates).2 =
        (candidates.filter (fun p => p.is_approved)).length)
    ∧ (∀ (p : PaperMetadata) (core : String) (st : StructuredExtractionResult),
        pyStrip core.data = [] →
          _extract_contribution (Except.ok (core, st)) p = Except.error ()) := by
  have hlast : ∀ (p : PaperMetadata) (core : String) (st : StructuredExtractionResult),
      pyStrip core.data = [] →
        _extract_contribution (Except.ok (core, st)) p = Except.error () := by
    intro p core st hcore
    simp only [_extract_contribution]
    rw [if_pos (Or.inr hcore)]
  by_cases happr : candidates.filter (fun p => p.is_approved) = []
  · unfold extractor_agent
    rw [if_pos happr]
    refine ⟨by simp [happr], by simp [happr, extractFailedCount], by simp [happr], hlast⟩
  · unfold extractor_agent
    rw [if_neg happr]
    have hids : (extractedPapers llmOracle
          (candidates.filter (fun p => p.is_approved))).map (fun p => p.paper_id) =
        ((candidates.filter (fun p => p.is_approved)).filter
            (fun p => (_extract_contribution (llmOracle p) p).toOption.isSome)).map
          (fun p => p.paper_id) := by
      unfold extractedPapers
      exact extractOne_ids (fun p => _extract_contribution (llmOracle p) p)
        (fun p q h => _extract_contribution_id (llmOracle p) p q h)
        (candidates.filter (fun p => p.is_approved))
    have hlen : (extractedPapers llmOracle
          (candidates.filter (fun p => p.is_approved))).length +
        extractFailedCount llmOracle (candidates.filter (fun p => p.is_approved)) =
        (candidates.filter (fun p => p.is_approved)).length := by
      unfold extractedPapers extractFailedCount
      exact filterMap_toOption_length (fun p => _extract_contribution (llmOracle p) p)
        (candidates.filter (fun p => p.is_approved))
    have hcount : extractFailedCount llmOracle (candidates.filter (fun p => p.is_approved)) =
        (candidates.filter (fun p => p.is_approved)).countP
          (fun p => (_extract_contribution (llmOracle p) p).toOption = none) := by
      unfold extractFailedCount
      rw [List.countP_map]
      rfl
    refine ⟨?_, hcount, ?_, hlast⟩
    · by_cases hneed : (extractedPapers llmOracle
          (candidates.filter (fun p => p.is_approved))).filter
            (fun p => p.pdf_url.isNone) = []
      · simp only [if_pos hneed]
        exact hids
      · simp only [if_neg hneed]
        rw [enrich_ids resolveOracle]
        exact hids
    · by_cases hneed : (extractedPapers llmOracle
          (candidates.filter (fun p => p.is_approved))).filter
            (fun p => p.pdf_url.isNone) = []
      · simp only [if_pos hneed]
        exact hlen
      · simp only [if_neg hneed]
        unfold enrich_papers_with_fulltext
        rw [List.length_map]
        exact hlen

/-- C7 witness: of two approved papers the one whose extraction raises is
dropped and counted, the unapproved one is ignored, the survivor keeps its
place; a whitespace-only core_contribution raises. -/
theorem c7_extractor_isolation_witness :
    ((extractor_agent
          (fun p => if p.paper_id = "a" then Except.ok (("Shows X."), {}) else Except.error ())
          (fun _ => Except.ok (none, none))
          [{ paper_id := "a", title := "A", is_approved := true },
            { paper_id := "b", title := "B", is_approved := true },
            { paper_id := "c", title := "C" }]).1.map (fun p => p.paper_id) = [("a")])
    ∧ ((extractor_agent
          (fun p => if p.paper_id = "a" then Except.ok (("Shows X."), {}) else Except.error ())
          (fun _ => Except.ok (none, none))
          [{ paper_id := "a", title := "A", is_approved := true },
            { paper_id := "b", title := "B", is_approved := true },
            { paper_id := "c", title := "C" }]).2 = 1)
    ∧ _extract_contribution (Except.ok (("   "), {}))
        { paper_id := "a", title := "A" } = Except.error () := by
  have h := c7_extractor_isolation
    (fun p => if p.paper_id = "a" then Except.ok (("Shows X."), {}) else Except.error ())
    (fun _ => Except.ok (none, none))
    [{ paper_id := "a", title := "A", is_approved := true },
      { paper_id := "b", title := "B", is_approved := true },
      { paper_id := "c", title := "C" }]
  refine ⟨?_, ?_, h.2.2.2 { paper_id := "a", title := "A" } ("   ") {} (by decide)⟩
  · rw [h.1]
    decide
  · rw [h.2.1]
    decide

/- Dictionary lemmas for the dedup seen_titles association list. -/

theorem dictGet_set_self (d : List (List Char × PaperMetadata)) (k : List Char)
    (v : PaperMetadata) : dictGet (dictSet d k v) k = some v := by
  induction d with
  | nil => simp [dictGet, dictSet]
  | cons kv rest ih =>
    unfold dictSet
    by_cases h : kv.1 = k
    · rw [if_pos h]
      simp [dictGet]
    · rw [if_neg h]
      unfold dictGet at ih ⊢
      rw [List.find?_cons_of_neg]
      · exact ih
      · simp [h]

theorem dictGet_set_other (d : List (List Char × PaperMetadata)) (k k2 : List Char)
    (v : PaperMetadata) (hk : k2 ≠ k) : dictGet (dictSet d k v) k2 = dictGet d k2 := by
  have hkk : ¬ k = k2 := fun h => hk h.symm
  induction d with
  | nil =>
    simp [dictGet, dictSet, List.find?, hkk]
  | cons kv rest ih =>
    unfold dictSet
    by_cases h : kv.1 = k
    · rw [if_pos h]
      simp [dictGet, List.find?, h, hkk]
    · rw [if_neg h]
      by_cases h2 : kv.1 = k2
      · simp [dictGet, List.find?, h2]
      · simp only [dictGet, List.find?] at ih ⊢
        rw [show (decide (kv.1 = k2)) = false by simpa using h2]
        simpa using ih

/- The four mutually exclusive behaviours of the loop body. -/

theorem dedupStep_seen (st : DedupState) (p : PaperMetadata)
    (h : p.paper_id ∈ st.seen_ids) : dedupStep st p = st := by
  unfold dedupStep
  rw [if_pos h]

theorem dedupStep_new_title (st : DedupState) (p : PaperMetadata)
    (h1 : p.paper_id ∉ st.seen_ids)
    (h2 : dictGet st.seen_titles (normalizedTitle p.title) = none) :
    dedupStep st p =
      { seen_titles := dictSet st.seen_titles (normalizedTitle p.title) p,
        seen_ids := p.paper_id :: st.seen_ids,
        result := st.result ++ [p] } := by
  unfold dedupStep
  rw [if_neg h1, h2]

theorem dedupStep_collision_ss (st : DedupState) (p existing : PaperMetadata)
    (h1 : p.paper_id ∉ st.seen_ids)
    (h2 : dictGet st.seen_titles (normalizedTitle p.title) = some existing)
    (h3 : p.source = PaperSource.semantic_scholar) :
    dedupStep st p =
      { seen_titles := dictSet st.seen_titles (normalizedTitle p.title) p,
        seen_ids := p.paper_id :: st.seen_ids,
        result := (st.result.filter (fun q => q.paper_id ≠ existing.paper_id)) ++ [p] } := by
  unfold dedupStep
  rw [if_neg h1, h2]
  simp [h3]

theorem dedupStep_collision_other (st : DedupState) (p existing : PaperMetadata)
    (h1 : p.paper_id ∉ st.seen_ids)
    (h2 : dictGet st.seen_titles (normalizedTitle p.title) = some existing)
    (h3 : p.source ≠ PaperSource.semantic_scholar) :
    dedupStep st p =
      { seen_titles := st.seen_titles,
        seen_ids := p.paper_id :: st.seen_ids,
        result := st.result } := by
  unfold dedupStep
  rw [if_neg h1, h2]
  simp [h3]

/-- Invariant maintained by the dedup fold. -/
def DedupInv (st : DedupState) : Prop :=
  (st.result.map (fun p => p.paper_id)).Nodup
  ∧ (∀ q ∈ st.result, q.paper_id ∈ st.seen_ids)
  ∧ (∀ q ∈ st.result, dictGet st.seen_titles (normalizedTitle q.title) = some q)

theorem dedupStep_inv (st : DedupState) (p : PaperMetadata) (h : DedupInv st) :
    DedupInv (dedupStep st p) := by
  obtain ⟨hnd, hids, hdict⟩ := h
  by_cases hseen : p.paper_id ∈ st.seen_ids
  · rw [dedupStep_seen st p hseen]
    exact ⟨hnd, hids, hdict⟩
  · have hfresh : p.paper_id ∉ st.result.map (fun q => q.paper_id) := by
      intro hmem
      obtain ⟨q, hq, hqid⟩ := List.mem_map.mp hmem
      exact hseen (hqid ▸ hids q hq)
    cases hget : dictGet st.seen_titles (normalizedTitle p.title) with
    | none =>
      rw [dedupStep_new_title st p hseen hget]
      refine ⟨?_, ?_, ?_⟩
      · show ((st.result ++ [p]).map (fun q => q.paper_id)).Nodup
        rw [List.map_append, List.nodup_append]
        refine ⟨hnd, List.nodup_singleton _, ?_⟩
        intro a ha hb
        simp only [List.map_cons, List.map_nil, List.mem_singleton] at hb
        exact hfresh (hb ▸ ha)
      · intro q hq
        replace hq : q ∈ st.result ++ [p] := hq
        simp only [List.mem_append, List.mem_singleton] at hq
        show q.paper_id ∈ p.paper_id :: st.seen_ids
        rcases hq with hq | hq
        · exact List.mem_cons_of_mem _ (hids q hq)
        · subst hq
          exact List.mem_cons_self _ _
      · intro q hq
        replace hq : q ∈ st.result ++ [p] := hq
        simp only [List.mem_append, List.mem_singleton] at hq
        show dictGet (dictSet st.seen_titles (normalizedTitle p.title) p)
          (normalizedTitle q.title) = some q
        rcases hq with hq | hq
        · have hne : normalizedTitle q.title ≠ normalizedTitle p.title := by
            intro heq
            have hh := hdict q hq
            rw [heq, hget] at hh
            exact absurd hh (by simp)
          rw [dictGet_set_other _ _ _ _ hne]
          exact hdict q hq
        · subst hq
          exact dictGet_set_self _ _ _
    | some existing =>
      by_cases hsrc : p.source = PaperSource.semantic_scholar
      · rw [dedupStep_collision_ss st p existing hseen hget hsrc]
        refine ⟨?_, ?_, ?_⟩
        · show (((st.result.filter (fun q => q.paper_id ≠ existing.paper_id)) ++ [p]).map
            (fun q => q.paper_id)).Nodup
          rw [List.map_append, List.nodup_append]
          refine ⟨List.Nodup.sublist
            (List.Sublist.map _ (List.filter_sublist _)) hnd,
            List.nodup_singleton _, ?_⟩
          intro a ha hb
          simp only [List.map_cons, List.map_nil, List.mem_singleton] at hb
          subst hb
          obtain ⟨q, hq, hqid⟩ := List.mem_map.mp ha
          exact hfresh (hqid ▸ (List.mem_map.mpr ⟨q, List.mem_of_mem_filter hq, rfl⟩))
        · intro q hq
          replace hq : q ∈ (st.result.filter (fun q => q.paper_id ≠ existing.paper_id)) ++ [p] := hq
          simp only [List.mem_append, List.mem_singleton] at hq
          show q.paper_id ∈ p.paper_id :: st.seen_ids
          rcases hq with hq | hq
          · exact List.mem_cons_of_mem _ (hids q (List.mem_of_mem_filter hq))
          · subst hq
            exact List.mem_cons_self _ _
        · intro q hq
          replace hq : q ∈ (st.result.filter (fun q => q.paper_id ≠ existing.paper_id)) ++ [p] := hq
          simp only [List.mem_append, List.mem_singleton] at hq
          show dictGet (dictSet st.seen_titles (normalizedTitle p.title) p)
            (normalizedTitle q.title) = some q
          rcases hq with hq | hq
          · have hqr := List.mem_of_mem_filter hq
            have hqne : q.paper_id ≠ existing.paper_id := by
              have := List.of_mem_filter hq
              simpa using this
            have hne : normalizedTitle q.title ≠ normalizedTitle p.title := by
              intro heq
              have h1 := hdict q hqr
              rw [heq, hget] at h1
              have hqe : existing = q := by simpa using h1
              exact hqne (hqe ▸ rfl)
            rw [dictGet_set_other _ _ _ _ hne]
            exact hdict q hqr
          · subst hq
            exact dictGet_set_self _ _ _
      · rw [dedupStep_collision_other st p existing hseen hget hsrc]
        refine ⟨hnd, ?_, hdict⟩
        intro q hq
        exact List.mem_cons_of_mem _ (hids q hq)

theorem foldl_dedup_inv (papers : List PaperMetadata) :
    ∀ st, DedupInv st → DedupInv (papers.foldl dedupStep st) := by
  induction papers with
  | nil => intro st h; exact h
  | cons p rest ih =>
    intro st h
    exact ih (dedupStep st p) (dedupStep_inv st p h)

theorem dedupStep_result_cases (st : DedupState) (p q : PaperMetadata)
    (h : q ∈ (dedupStep st p).result) : q ∈ st.result ∨ q = p := by
  by_cases hseen : p.paper_id ∈ st.seen_ids
  · rw [dedupStep_seen st p hseen] at h
    exact Or.inl h
  · cases hget : dictGet st.seen_titles (normalizedTitle p.title) with
    | none =>
      rw [dedupStep_new_title st p hseen hget] at h
      replace h : q ∈ st.result ++ [p] := h
      simp only [List.mem_append, List.mem_singleton] at h
      exact h
    | some existing =>
      by_cases hsrc : p.source = PaperSource.semantic_scholar
      · rw [dedupStep_collision_ss st p existing hseen hget hsrc] at h
        replace h : q ∈ (st.result.filter (fun r => r.paper_id ≠ existing.paper_id)) ++ [p] := h
        simp only [List.mem_append, List.mem_singleton] at h
        rcases h with h | h
        · exact Or.inl (List.mem_of_mem_filter h)
        · exact Or.inr h
      · rw [dedupStep_collision_other st p existing hseen hget hsrc] at h
        exact Or.inl h

theorem dedup_result_subset (papers : List PaperMetadata) :
    ∀ st, ∀ q ∈ (papers.foldl dedupStep st).result, q ∈ st.result ∨ q ∈ papers := by
  induction papers with
  | nil =>
    intro st q hq
    exact Or.inl hq
  | cons p rest ih =>
    intro st q hq
    rcases ih (dedupStep st p) q hq with h | h
    · rcases dedupStep_result_cases st p q h with h2 | h2
      · exact Or.inl h2
      · exact Or.inr (h2 ▸ List.mem_cons_self _ _)
    · exact Or.inr (List.mem_cons_of_mem _ h)

theorem inv_titles_nodup (st : DedupState) (h : DedupInv st) :
    (st.result.map (fun p => normalizedTitle p.title)).Nodup := by
  obtain ⟨hnd, -, hdict⟩ := h
  have hres : st.result.Nodup := hnd.of_map
  refine List.Nodup.map_on ?_ hres
  intro x hx y hy hxy
  have h1 := hdict x hx
  have h2 := hdict y hy
  rw [hxy] at h1
  rw [h1] at h2
  simpa using h2

/-- C2 amended: deduplicate_papers removes duplicates first by paper_id (a
paper whose id was already seen is skipped); then by normalized title
(lowercased, keeping alphanumerics and spaces, whitespace collapsed): on a
collision a semantic-scholar paper replaces the previously recorded entry
regardless of that entry's source — including when the recorded entry is
itself a semantic-scholar paper — and otherwise (the colliding newcomer is
arxiv or pubmed) the first-seen paper wins and the newcomer is discarded.
Consequently the output has pairwise distinct paper_ids, pairwise distinct
normalized titles, and contains only input papers. -/
theorem c2_dedup_amended :
    (∀ st p, p.paper_id ∈ st.seen_ids → dedupStep st p = st)
    ∧ (∀ st p, p.paper_id ∉ st.seen_ids →
        dictGet st.seen_titles (normalizedTitle p.title) = none →
        (dedupStep st p).result = st.result ++ [p])
    ∧ (∀ st p existing, p.paper_id ∉ st.seen_ids →
        dictGet st.seen_titles (normalizedTitle p.title) = some existing →
        p.source = PaperSource.semantic_scholar →
        (dedupStep st p).result =
          (st.result.filter (fun q => q.paper_id ≠ existing.paper_id)) ++ [p])
    ∧ (∀ st p existing, p.paper_id ∉ st.seen_ids →
        dictGet st.seen_titles (normalizedTitle p.title) = some existing →
        p.source ≠ PaperSource.semantic_scholar →
        (dedupStep st p).result = st.result)
    ∧ (∀ papers : List PaperMetadata,
        ((deduplicate_papers papers).map (fun p => p.paper_id)).Nodup
        ∧ ((deduplicate_papers papers).map (fun p => normalizedTitle p.title)).Nodup
        ∧ ∀ q ∈ deduplicate_papers papers, q ∈ papers) := by
  refine ⟨dedupStep_seen, ?_, ?_, ?_, ?_⟩
  · intro st p h1 h2
    rw [dedupStep_new_title st p h1 h2]
  · intro st p ex h1 h2 h3
    rw [dedupStep_collision_ss st p ex h1 h2 h3]
  · intro st p ex h1 h2 h3
    rw [dedupStep_collision_other st p ex h1 h2 h3]
  · intro papers
    have hinv : DedupInv (papers.foldl dedupStep ⟨[], [], []⟩) :=
      foldl_dedup_inv papers ⟨[], [], []⟩ ⟨List.nodup_nil, by simp, by simp⟩
    refine ⟨hinv.1, inv_titles_nodup _ hinv, ?_⟩
    intro q hq
    rcases dedup_result_subset papers ⟨[], [], []⟩ q hq with h | h
    · exact absurd h (by simp)
    · exact h

/-- C2 counterexample: two semantic-scholar papers with distinct ids and the
same normalized title.  The previously recorded entry is neither arxiv nor
pubmed, so the claim as stated says the first-seen paper wins; the code
instead replaces it with the later semantic-scholar paper. -/
theorem c2_dedup_counterexample :
    deduplicate_papers
        [{ paper_id := "s1", title := "Deep Learning",
            source := PaperSource.semantic_scholar },
          { paper_id := "s2", title := "Deep  Learning!",
            source := PaperSource.semantic_scholar }] =
      [{ paper_id := "s2", title := "Deep  Learning!",
          source := PaperSource.semantic_scholar }]
    ∧ normalizedTitle ("Deep Learning") = normalizedTitle ("Deep  Learning!")
    ∧ ("s1" : String) ≠ ("s2" : String)
    ∧ deduplicate_papers
        [{ paper_id := "s1", title := "Deep Learning",
            source := PaperSource.semantic_scholar },
          { paper_id := "s2", title := "Deep  Learning!",
            source := PaperSource.semantic_scholar }] ≠
      [{ paper_id := "s1", title := "Deep Learning",
          source := PaperSource.semantic_scholar }] := by
  refine ⟨?_, ?_, ?_, ?_⟩ <;> decide

/-- C2 witness: an already-seen paper_id is skipped entirely, and a concrete
run yields pairwise distinct ids. -/
theorem c2_dedup_amended_witness :
    dedupStep ⟨[], [("x")], []⟩ { paper_id := "x", title := "T" } = ⟨[], [("x")], []⟩
    ∧ ((deduplicate_papers
          [{ paper_id := "a", title := "T" }, { paper_id := "a", title := "U" }]).map
        (fun p => p.paper_id)).Nodup := by
  constructor
  · exact c2_dedup_amended.1 ⟨[], [("x")], []⟩ { paper_id := "x", title := "T" } (by decide)
  · exact (c2_dedup_amended.2.2.2.2
      [{ paper_id := "a", title := "T" }, { paper_id := "a", title := "U" }]).1

/-- C3: adapter post-processing of one section of the returned draft: the
content is rewritten marker by marker — each in-range marker \x7bcite:N\x7d
becomes [N], each out-of-range marker is removed, all other text is copied
unchanged — and cited_paper_ids equals the paper_ids of the approved papers
whose 1-based index N appears bracketed as [N] in the final content, in
ascending index order with no duplicates. -/
theorem c3_adapter_postprocess (approvedIds : List String) (s : ReviewSection) :
    ((postprocessSection approvedIds s).content =
        (citeScan s.content).flatMap (renderCiteSeg approvedIds.length))
    ∧ (∀ n, 1 ≤ n → n ≤ approvedIds.length →
        renderCiteSeg approvedIds.length (Seg.cite n) = '[' :: (Nat.repr n).data ++ [']'])
    ∧ (∀ n, n < 1 ∨ approvedIds.length < n →
        renderCiteSeg approvedIds.length (Seg.cite n) = [])
    ∧ (∀ c, renderCiteSeg approvedIds.length (Seg.lit c) = [c])
    ∧ ∃ idxs : List Nat,
        idxs.Sorted (· < ·)
        ∧ (∀ n, n ∈ idxs ↔ 1 ≤ n ∧ n ≤ approvedIds.length ∧
            n ∈ bracketFinds (postprocessSection approvedIds s).content)
        ∧ (postprocessSection approvedIds s).cited_paper_ids =
            idxs.map (fun n => approvedIds.getD (n - 1) "") := by
  refine ⟨rfl, ?_, ?_, fun c => rfl, ?_⟩
  · intro n h1 h2
    simp only [renderCiteSeg]
    rw [if_pos ⟨h1, h2⟩]
  · intro n h
    simp only [renderCiteSeg]
    rw [if_neg]
    intro hcon
    omega
  · refine ⟨sortedSet ((bracketFinds (citeSub approvedIds.length s.content)).filter
      (fun n => decide (1 ≤ n ∧ n ≤ approvedIds.length))), ?_, ?_, rfl⟩
    · exact sortedSet_sorted _
    · intro n
      rw [mem_sortedSet, List.mem_filter]
      constructor
      · intro ⟨hmem, hdec⟩
        obtain ⟨h1, h2⟩ := of_decide_eq_true hdec
        exact ⟨h1, h2, hmem⟩
      · intro ⟨h1, h2, hmem⟩
        exact ⟨hmem, decide_eq_true ⟨h1, h2⟩⟩

/-- C3 witness: with two approved papers, an in-range marker becomes [1], an
out-of-range marker vanishes, and a pre-existing bracketed [2] in the text is
picked up, so cited_paper_ids lists both papers in index order. -/
theorem c3_adapter_postprocess_witness :
    (postprocessSection [("pA"), ("pB")]
        ⟨"H", ("See \x7bcite:1\x7d and \x7bcite:5\x7d plus [2]").data, []⟩).content =
      ("See [1] and  plus [2]").data
    ∧ (postprocessSection [("pA"), ("pB")]
        ⟨"H", ("See \x7bcite:1\x7d and \x7bcite:5\x7d plus [2]").data, []⟩).cited_paper_ids =
      [("pA"), ("pB")] := by
  constructor
  · rw [(c3_adapter_postprocess [("pA"), ("pB")]
      ⟨"H", ("See \x7bcite:1\x7d and \x7bcite:5\x7d plus [2]").data, []⟩).1]
    decide
  · decide

theorem sortedSet_eq_nil (l : List Nat) : sortedSet l = [] ↔ l = [] := by
  constructor
  · intro h
    have hlen := sortedSet_length_eq_dedup_length l
    rw [h] at hlen
    have hd : l.dedup = [] := List.length_eq_zero.mp hlen.symm
    exact (List.dedup_eq_nil l).mp hd
  · intro h
    subst h
    rfl

theorem layer1SectionErrors_length (numPapers i : Nat) (s : ReviewSection) :
    (layer1SectionErrors numPapers i s).length =
      (((citeFinds s.content).dedup).filter
          (fun idx => decide (¬(1 ≤ idx ∧ idx ≤ numPapers)))).length
        + (if citeFinds s.content = [] then 1 else 0) := by
  unfold layer1SectionErrors
  rw [List.length_append, List.length_map]
  congr 1
  · exact (((List.perm_insertionSort _ _)).filter _).length_eq
  · by_cases h : citeFinds s.content = []
    · rw [if_pos ((sortedSet_eq_nil _).mpr h), if_pos h]
      rfl
    · rw [if_neg (fun hh => h ((sortedSet_eq_nil _).mp hh)), if_neg h]
      rfl

theorem enumFrom_sectionErrors_length (numPapers : Nat) (sections : List ReviewSection) :
    ∀ i : Nat,
      ((List.enumFrom i sections).flatMap
          (fun p => layer1SectionErrors numPapers p.1 p.2)).length =
        (sections.map (fun s => (((citeFinds s.content).dedup).filter
            (fun idx => decide (¬(1 ≤ idx ∧ idx ≤ numPapers)))).length)).sum
          + (sections.filter (fun s => decide (citeFinds s.content = []))).length := by
  induction sections with
  | nil =>
    intro i
    rfl
  | cons s rest ih =>
    intro i
    show ((((i, s) :: List.enumFrom (i + 1) rest)).flatMap
        (fun p => layer1SectionErrors numPapers p.1 p.2)).length = _
    rw [List.flatMap_cons, List.length_append, ih (i + 1),
      layer1SectionErrors_length numPapers i s]
    simp only [List.map_cons, List.sum_cons, List.filter_cons]
    by_cases h : citeFinds s.content = [] <;> simp [h] <;> omega

theorem layer1Errors_length (numPapers : Nat) (sections : List ReviewSection) :
    (layer1Errors numPapers sections).length =
      (sections.map (fun s => (((citeFinds s.content).dedup).filter
          (fun idx => decide (¬(1 ≤ idx ∧ idx ≤ numPapers)))).length)).sum
        + (sections.filter (fun s => decide (citeFinds s.content = []))).length
        + ((List.range' 1 numPapers).filter
            (fun idx => decide (idx ∉ allCitedIndices sections))).length := by
  unfold layer1Errors
  rw [List.length_append, List.length_map]
  congr 1
  exact enumFrom_sectionErrors_length numPapers sections 0

/-- C4: Critic Layer 1 emits one error per distinct out-of-range \x7bcite:N\x7d
index per section, one error per section containing no \x7bcite:N\x7d marker,
and one error per approved index in [1..num_papers] cited in no section; and
whenever any error exists the stage stores exactly these errors in qa_errors,
increments retry_count by 1, and returns without running semantic
verification. -/
theorem c4_critic_layer1 (verify : Except Unit ClaimVerificationSummary) (enabled : Bool)
    (approved : List PaperMetadata) (d : DraftOutput) (rc : Nat) :
    ((layer1Errors approved.length d.sections).length =
        (d.sections.map (fun s => (((citeFinds s.content).dedup).filter
            (fun idx => decide (¬(1 ≤ idx ∧ idx ≤ approved.length)))).length)).sum
          + (d.sections.filter (fun s => decide (citeFinds s.content = []))).length
          + ((List.range' 1 approved.length).filter
              (fun idx => decide (idx ∉ allCitedIndices d.sections))).length)
    ∧ (layer1Errors approved.length d.sections ≠ [] →
        critic_agent verify enabled approved (some d) rc =
          ⟨layer1Errors approved.length d.sections, rc + 1, false⟩) := by
  refine ⟨layer1Errors_length approved.length d.sections, ?_⟩
  intro hne
  show (if layer1Errors approved.length d.sections ≠ [] then
      (⟨layer1Errors approved.length d.sections, rc + 1, false⟩ : CriticOutcome)
    else _) = _
  rw [if_pos hne]

/-- C4 witness: against 2 approved papers, a draft with one section citing an
out-of-range index 3 and a second section with no citations yields three
errors (hallucinated 3, no citations, missing paper 2) and the Critic stores
them, bumps retry_count to 1 and skips semantic verification. -/
theorem c4_critic_layer1_witness :
    (layer1Errors 2 [⟨"S1", ("A \x7bcite:3\x7d B \x7bcite:1\x7d").data, []⟩,
        ⟨"S2", ("no cites here").data, []⟩]).length = 3
    ∧ critic_agent (Except.error ()) true
        [{ paper_id := "p1", title := "T1" }, { paper_id := "p2", title := "T2" }]
        (some ⟨"D", [⟨"S1", ("A \x7bcite:3\x7d B \x7bcite:1\x7d").data, []⟩,
          ⟨"S2", ("no cites here").data, []⟩]⟩) 0 =
        ⟨layer1Errors 2 [⟨"S1", ("A \x7bcite:3\x7d B \x7bcite:1\x7d").data, []⟩,
          ⟨"S2", ("no cites here").data, []⟩], 1, false⟩ := by
  have h := c4_critic_layer1 (Except.error ()) true
    [{ paper_id := "p1", title := "T1" }, { paper_id := "p2", title := "T2" }]
    ⟨"D", [⟨"S1", ("A \x7bcite:3\x7d B \x7bcite:1\x7d").data, []⟩,
      ⟨"S2", ("no cites here").data, []⟩]⟩ 0
  constructor
  · rw [show (3 : Nat) = 2 + 1 + 0 by rfl]
    rw [show (2 : Nat) =
      ([{ paper_id := "p1", title := "T1" },
        { paper_id := "p2", title := "T2" }] : List PaperMetadata).length by rfl]
    rw [h.1]
    decide
  · exact h.2 (by decide)

/-- C5: when Layer 1 passes, claim verification is enabled and yields at
least one verification result, the Critic fails the draft exactly when
entails_count / total_verifications < 0.8; on failure it stores at most 3
human-readable detail strings (claim excerpt, cited index, label, rationale)
in qa_errors and increments retry_count by 1; and an exception from claim
extraction or verification never fails the stage: the draft passes through
with qa_errors empty and retry_count unchanged. -/
theorem c5_critic_semantic (approved : List PaperMetadata) (d : DraftOutput) (rc : Nat)
    (summary : ClaimVerificationSummary)
    (hL1 : layer1Errors approved.length d.sections = [])
    (happr : approved ≠ [])
    (htot : 0 < summary.total_verifications) :
    (((summary.entails_count : ℚ) / (summary.total_verifications : ℚ) <
          minEntailmentThreshold) →
        critic_agent (Except.ok summary) CLAIM_VERIFICATION_ENABLED approved (some d) rc =
            ⟨(summary.failed_verifications.take 3).map formatFailedVerification,
              rc + 1, true⟩
          ∧ (critic_agent (Except.ok summary) CLAIM_VERIFICATION_ENABLED approved
              (some d) rc).qa_errors.length ≤ 3)
    ∧ (¬((summary.entails_count : ℚ) / (summary.total_verifications : ℚ) <
          minEntailmentThreshold) →
        critic_agent (Except.ok summary) CLAIM_VERIFICATION_ENABLED approved (some d) rc =
          ⟨[], rc, true⟩)
    ∧ ((critic_agent (Except.ok summary) CLAIM_VERIFICATION_ENABLED approved
          (some d) rc).retry_count = rc + 1 ↔
        (summary.entails_count : ℚ) / (summary.total_verifications : ℚ) <
          minEntailmentThreshold)
    ∧ critic_agent (Except.error ()) CLAIM_VERIFICATION_ENABLED approved (some d) rc =
        ⟨[], rc, true⟩ := by
  have hgate : (CLAIM_VERIFICATION_ENABLED && decide (approved ≠ [])) = true := by
    simp [CLAIM_VERIFICATION_ENABLED, happr]
  have hok : ∀ verify, critic_agent verify CLAIM_VERIFICATION_ENABLED approved (some d) rc =
      match verify with
      | Except.error _ => (⟨[], rc, true⟩ : CriticOutcome)
      | Except.ok summary2 =>
        if 0 < summary2.total_verifications ∧
            (summary2.entails_count : ℚ) / (summary2.total_verifications : ℚ) <
              minEntailmentThreshold then
          ⟨(summary2.failed_verifications.take 3).map formatFailedVerification,
            rc + 1, true⟩
        else ⟨[], rc, true⟩ := by
    intro verify
    show (if layer1Errors approved.length d.sections ≠ [] then _
      else if CLAIM_VERIFICATION_ENABLED && decide (approved ≠ []) then _ else _) = _
    rw [if_neg (fun hh => hh hL1), if_pos hgate]
  have hifeq : critic_agent (Except.ok summary) CLAIM_VERIFICATION_ENABLED approved
      (some d) rc =
      if 0 < summary.total_verifications ∧
          (summary.entails_count : ℚ) / (summary.total_verifications : ℚ) <
            minEntailmentThreshold then
        ⟨(summary.failed_verifications.take 3).map formatFailedVerification, rc + 1, true⟩
      else ⟨[], rc, true⟩ := hok (Except.ok summary)
  refine ⟨?_, ?_, ?_, ?_⟩
  · intro hratio
    rw [if_pos ⟨htot, hratio⟩] at hifeq
    refine ⟨hifeq, ?_⟩
    rw [hifeq]
    show ((summary.failed_verifications.take 3).map formatFailedVerification).length ≤ 3
    rw [List.length_map]
    exact List.length_take_le 3 summary.failed_verifications
  · intro hratio
    rw [if_neg (fun hc => hratio hc.2)] at hifeq
    exact hifeq
  · constructor
    · intro hretry
      by_cases hratio : (summary.entails_count : ℚ) / (summary.total_verifications : ℚ) <
          minEntailmentThreshold
      · exact hratio
      · exfalso
        rw [if_neg (fun hc => hratio hc.2)] at hifeq
        rw [hifeq] at hretry
        simp only [CriticOutcome.mk.injEq] at hretry
        omega
    · intro hratio
      rw [if_pos ⟨htot, hratio⟩] at hifeq
      rw [hifeq]
  · exact hok (Except.error ())

/-- C5 witness: with one approved paper, a clean one-section draft and a
summary of 5 verifications of which 3 entail (ratio 0.6 < 0.8), the Critic
fails with the formatted details and retry_count 1; an exception instead
passes the draft through untouched. -/
theorem c5_critic_semantic_witness :
    critic_agent
        (Except.ok ⟨5, 3, [⟨"claim one", 1, EntailmentLabel.insufficient, "weak"⟩]⟩)
        CLAIM_VERIFICATION_ENABLED [{ paper_id := "p1", title := "T1" }]
        (some ⟨"D", [⟨"S1", ("Core point \x7bcite:1\x7d.").data, []⟩]⟩) 0 =
      ⟨(([⟨"claim one", 1, EntailmentLabel.insufficient,
          "weak"⟩] : List ClaimVerificationResult).take 3).map formatFailedVerification,
        1, true⟩
    ∧ critic_agent (Except.error ()) CLAIM_VERIFICATION_ENABLED
        [{ paper_id := "p1", title := "T1" }]
        (some ⟨"D", [⟨"S1", ("Core point \x7bcite:1\x7d.").data, []⟩]⟩) 0 =
      ⟨[], 0, true⟩ := by
  have h := c5_critic_semantic [{ paper_id := "p1", title := "T1" }]
    ⟨"D", [⟨"S1", ("Core point \x7bcite:1\x7d.").data, []⟩]⟩ 0
    ⟨5, 3, [⟨"claim one", 1, EntailmentLabel.insufficient, "weak"⟩]⟩
    (by decide) (by decide) (by decide)
  exact ⟨(h.1 (by norm_num [minEntailmentThreshold])).1, h.2.2.2⟩

end AutoScholar
